import Mathlib

/-!
Verification development for the HumanPose core: the schema
intersection/alignment engine (`humanpose/intersection.py`) and the adaptive
skeleton topology and colour engine (`humanpose/visualise/skeleton.py`).

Landmark schemas are embedded as `List String`, bones as pairs of landmark
indices, colours as integer triples.  Python's floating-point colour
interpolation is embedded with exact rational arithmetic; Python's `int()`
truncation is `pyInt`.  Code that can raise (`list.index` on an absent name,
NumPy out-of-range fancy indexing) is embedded with `Option` / an explicit
outcome type, `none` marking the raised exception.
-/

/-! ## Basic list helpers (Python `list.index` / `in`) -/

/-- Embeds Python `list.index`: index of the first occurrence of `x` in `lm`
(meaningful only when `x ∈ lm`; Python raises otherwise, and every raising
call site is modelled separately with `idxOf?`). -/
def idxOf (lm : List String) (x : String) : Nat :=
  match lm with
  | [] => 0
  | a :: r => if a = x then 0 else idxOf r x + 1

/-- Embeds a raising Python `list.index` call: `some` index when present,
`none` when the call would raise `ValueError`. -/
def idxOf? (lm : List String) (x : String) : Option Nat :=
  if x ∈ lm then some (idxOf lm x) else none

/-- First element of `cand` that is present in `lm` (the repeated Python
pattern `for p in cand: if p in landmarks: ... break`). -/
def firstPresent (lm : List String) : List String → Option String
  | [] => none
  | s :: r => if s ∈ lm then some s else firstPresent lm r

/-! ## The body-part catalog (`_Skeleton._body_parts` etc.) -/

/-- `_Skeleton._sides`. -/
def sidesList : List String := ["left ", "right "]

/-- `_Skeleton._body_parts["leg"]`. -/
def legList : List String := ["foot", "ankle", "knee", "hip"]

/-- `_Skeleton._body_parts["arm"]`. -/
def armList : List String := ["hand", "wrist", "elbow", "shoulder", "clavicle"]

/-- `_Skeleton._body_parts["spine"]`. -/
def spineList : List String :=
  ["head centre", "head", "neck", "shoulder centre", "thorax",
   "mid torso", "belly", "pelvis"]

/-- `_Skeleton._body_parts["head"]`. -/
def headListBP : List String := ["head top", "nose"]

/-- `_Skeleton._body_parts["face"]` (insertion-ordered dict as pairs). -/
def faceDict : List (String × String) := [("ear", "eye"), ("eye", "nose")]

/-- `_Skeleton._body_parts["hand"]`. -/
def handDict : List (String × String) := [("handtip", "hand"), ("thumb", "hand")]

/-- `_Skeleton._body_parts["foot"]`. -/
def footDict : List (String × String) :=
  [("big toe", "ankle"), ("small toe", "foot"), ("heel", "ankle")]

/-- `_Skeleton._body_parts["objects"]`. -/
def objectsList : List String := ["stick top", "stick end"]

/-! ## Bone topology (`_Skeleton._compute_bones` and helpers) -/

/-- A bone: ordered pair of landmark indices. -/
abbrev Bone := Nat × Nat

/-- Inner loop of `_Skeleton._connect_sequence`: `pt` is the last landmark of
the chain seen to be present; each further present landmark is connected to it
and becomes the new `pt`, absent landmarks are skipped. -/
def connectSeqFrom (lm : List String) (pt : String) : List String → List Bone
  | [] => []
  | next :: rest =>
    if next ∈ lm then
      (idxOf lm pt, idxOf lm next) :: connectSeqFrom lm next rest
    else
      connectSeqFrom lm pt rest

/-- Embeds `_Skeleton._connect_sequence`: scan for the first present landmark
of the chain, then connect each consecutive present pair. -/
def connectSequence (lm : List String) : List String → List Bone
  | [] => []
  | pt :: rest =>
    if pt ∈ lm then connectSeqFrom lm pt rest else connectSequence lm rest

/-- Embeds `_Skeleton._connect_sequence_symmetrically`: the chain instantiated
once per side prefix, results concatenated. -/
def connectSequenceSym (lm : List String) (cl : List String) : List Bone :=
  (sidesList.map (fun side => connectSequence lm (cl.map (side ++ ·)))).flatten

/-- Embeds `_Skeleton._connect_tree`: one edge per child/parent pair with both
names present. -/
def connectTree (lm : List String) (d : List (String × String)) : List Bone :=
  d.filterMap (fun p =>
    if p.1 ∈ lm ∧ p.2 ∈ lm then some (idxOf lm p.1, idxOf lm p.2) else none)

/-- Embeds `_Skeleton._connect_tree_symmetrically`. -/
def connectTreeSym (lm : List String) (d : List (String × String)) : List Bone :=
  (sidesList.map (fun side =>
    connectTree lm (d.map (fun p => (side ++ p.1, side ++ p.2))))).flatten

/-- Embeds `_Skeleton._limb2spine`.  The function starts with
`landmarks.index(side + limb_end)` for both sides, which raises when either
side's limb end is absent: `none` embeds that exception.  Otherwise the
ordered fallback of the source: (1) first present preferred attachment point
gets both limb ends; else (2) the limb ends are joined to each other and to
the first present point of `spine_list` if any; else (3) for the shoulder
pass only, each limb end is joined to the same-side hip (raising when a hip
is absent). -/
def limb2spine (lm : List String) (limb_end : String)
    (spine_attachment spine_list : List String) : Option (List Bone) := do
  let leftEnd ← idxOf? lm ("left " ++ limb_end)
  let rightEnd ← idxOf? lm ("right " ++ limb_end)
  match firstPresent lm spine_attachment with
  | some attachment =>
    pure [(leftEnd, idxOf lm attachment), (rightEnd, idxOf lm attachment)]
  | none =>
    match firstPresent lm spine_list with
    | some next_spine =>
      pure [(leftEnd, rightEnd),
            (leftEnd, idxOf lm next_spine), (rightEnd, idxOf lm next_spine)]
    | none =>
      if limb_end ≠ "hip" then do
        let leftHip ← idxOf? lm "left hip"
        let rightHip ← idxOf? lm "right hip"
        pure [(leftEnd, rightEnd), (leftEnd, leftHip), (rightEnd, rightHip)]
      else
        pure [(leftEnd, rightEnd)]

/-- First shoulder joint of `("clavicle", "shoulder")` whose left instance is
in the schema (the guard of the shoulder pass in `_compute_bones`). -/
def shoulderJoint? (lm : List String) : List String → Option String
  | [] => none
  | sj :: r => if ("left " ++ sj) ∈ lm then some sj else shoulderJoint? lm r

/-- The shoulder pass of `_compute_bones`: nothing is added when neither
"left clavicle" nor "left shoulder" is present; otherwise `_limb2spine` runs
for the first such joint with attachment points `("shoulder centre", "neck")`
and search list `spine[3:]`. -/
def shoulderLink (lm : List String) : Option (List Bone) :=
  match shoulderJoint? lm ["clavicle", "shoulder"] with
  | some sj => limb2spine lm sj ["shoulder centre", "neck"] (spineList.drop 3)
  | none => pure []

/-- The hip pass of `_compute_bones` (unconditional): `_limb2spine` for "hip"
with attachment `("pelvis",)` and search list `spine[-2:1:-1]`. -/
def hipLink (lm : List String) : Option (List Bone) :=
  limb2spine lm "hip" ["pelvis"] ((spineList.drop 2).dropLast.reverse)

/-- The head-to-spine link of `_compute_bones`: outer loop over the head
chain in reverse, inner loop over the full spine chain, the first pair with
both names present is connected and both loops stop (`for`/`else` with
`break`/`continue` in the source). -/
def headSpineLink (lm : List String) : List String → List Bone
  | [] => []
  | hp :: rest =>
    if hp ∈ lm then
      match firstPresent lm spineList with
      | some ts => [(idxOf lm hp, idxOf lm ts)]
      | none => headSpineLink lm rest
    else headSpineLink lm rest

/-- The per-section bone lists (`self._bones`; the `FULL` bucket of the
Python `IntFlag` iteration is always empty and is left out of the model). -/
structure Bones where
  main : List Bone
  head : List Bone
  face : List Bone
  hands : List Bone
  feet : List Bone
  objects : List Bone
deriving Repr, DecidableEq

/-- Embeds `_Skeleton._compute_bones`.  `none` embeds a raised exception
(from `list.index` inside `_limb2spine`). -/
def computeBones (lm : List String) : Option Bones := do
  let sh ← shoulderLink lm
  let hip ← hipLink lm
  pure { main := connectSequenceSym lm armList ++ sh
                ++ connectSequenceSym lm legList ++ hip
                ++ connectSequence lm spineList,
         head := connectSequence lm headListBP
                ++ headSpineLink lm headListBP.reverse,
         face := connectTreeSym lm faceDict,
         hands := connectTreeSym lm handDict,
         feet := connectTreeSym lm footDict,
         objects := connectSequence lm objectsList }

/-! ## Sections and bone queries (`_Skeleton.Sections`, `get_bone_list`) -/

/-- The six disjoint skeleton sections (`_Skeleton.Sections`, single-bit
members). -/
inductive Section where
  | MAIN | HEAD | FACE | HANDS | FEET | OBJECTS
deriving Repr, DecidableEq

/-- Bit value of each section member. -/
def Section.bit : Section → Nat
  | .MAIN => 1
  | .HEAD => 2
  | .FACE => 4
  | .HANDS => 8
  | .FEET => 16
  | .OBJECTS => 32

/-- `Sections.FULL = 31`. -/
def fullMask : Nat := 31

/-- Canonical declaration order of the section members. -/
def sectionsOrder : List Section :=
  [.MAIN, .HEAD, .FACE, .HANDS, .FEET, .OBJECTS]

/-- Bone list of one section. -/
def Bones.get : Bones → Section → List Bone
  | b, .MAIN => b.main
  | b, .HEAD => b.head
  | b, .FACE => b.face
  | b, .HANDS => b.hands
  | b, .FEET => b.feet
  | b, .OBJECTS => b.objects

/-- Embeds `_Skeleton.get_bone_list`: extend over the section members in
declaration order, keeping sections whose bit meets the mask.  (In the
source the iteration may also visit the composite `FULL` member, whose
bucket is always the empty list and contributes nothing.) -/
def getBoneList (b : Bones) (mask : Nat) : List Bone :=
  sectionsOrder.foldl
    (fun acc sec => if sec.bit &&& mask ≠ 0 then acc ++ b.get sec else acc) []

/-! ## Colours (`_Skeleton._compute_colours`, `get_colour_dict`) -/

/-- A colour triple of Python ints. -/
abbrev Colour := ℤ × ℤ × ℤ

/-- Embeds Python `int()` on the exact rational value of the interpolation
expression (truncation toward zero). -/
def pyInt (q : ℚ) : ℤ := q.num.tdiv q.den

/-- The exact real-arithmetic gradient parameter used to state the spec
formula: `t = i/(n-1)` when `n > 1`, else `t = 1`.  The code computes `t`
in binary64; see `interpChannel`. -/
def gradT (i n : Nat) : ℚ := if 1 < n then (i : ℚ) / ((n : ℚ) - 1) else 1

/-- Round a rational to the nearest integer, ties to even, via the floor
and the fractional part. -/
def rne (m : ℚ) : ℤ :=
  if m - ⌊m⌋ < 1 / 2 then ⌊m⌋
  else if 1 / 2 < m - ⌊m⌋ then ⌊m⌋ + 1
  else if 2 ∣ ⌊m⌋ then ⌊m⌋ else ⌊m⌋ + 1

/-- Floor of the base-2 logarithm of a positive rational, computed from the
`Nat` logarithms of its numerator and denominator. -/
def qlog2 (q : ℚ) : ℤ :=
  if (q.den : ℤ) * 2 ^ q.num.toNat.log2 ≤ q.num * 2 ^ q.den.log2
  then (q.num.toNat.log2 : ℤ) - q.den.log2
  else (q.num.toNat.log2 : ℤ) - q.den.log2 - 1

/-- The IEEE-754 binary64 double nearest to `q` (round to nearest, ties to
even) as an exact rational: `q` is scaled into the mantissa range
`[2^52, 2^53)` and rounded to an integer there.  Exponent overflow to
infinity and subnormal underflow lie outside the modelled range; every
value the colour interpolation reaches from the catalog's `[0, 255]`
colours is a normal double. -/
def fl (q : ℚ) : ℚ :=
  if q = 0 then 0
  else (rne (q * (2 : ℚ) ^ (52 - qlog2 |q|)) : ℚ) * (2 : ℚ) ^ (qlog2 |q| - 52)

/-- One interpolated channel, evaluated as the source's Python floats
evaluate it.  For `n > 1`, `t = i/(n-1)` is a correctly rounded float
division, and each int-to-float conversion, the difference `1 - t`, both
products and the sum round to binary64 before `int()` truncates.  For
`n = 1` the source sets `t = 1`, a Python `int`, so the whole expression
stays in exact integer arithmetic. -/
def interpChannel (s e : ℤ) (i n : Nat) : ℤ :=
  if 1 < n then
    pyInt (fl (fl (fl (s : ℚ) * fl (1 - fl ((i : ℚ) / ((n : ℚ) - 1))))
      + fl (fl (e : ℚ) * fl ((i : ℚ) / ((n : ℚ) - 1)))))
  else s * (1 - 1) + e * 1

/-- All three channels of the interpolated colour. -/
def interpColour (cs ce : Colour) (i n : Nat) : Colour :=
  (interpChannel cs.1 ce.1 i n, interpChannel cs.2.1 ce.2.1 i n,
   interpChannel cs.2.2 ce.2.2 i n)

/-- The `part_joints` list of `_compute_colours`: indices of the present
joints of a chain, in chain order (`names` already carries the side). -/
def partJoints (lm : List String) (names : List String) : List Nat :=
  (names.filter (fun nm => nm ∈ lm)).map (idxOf lm)

/-- Colour-dict entries produced for one gradient (chain) part, in the
order the source's `enumerate` loop assigns them. -/
def gradientEntries (lm : List String) (names : List String) (cs ce : Colour) :
    List (Nat × Colour) :=
  (partJoints lm names).enum.map
    (fun p => (p.2, interpColour cs ce p.1 (partJoints lm names).length))

/-- Colour-dict entries of one flat-coloured (tree) part: every present
child joint gets the part's single colour. -/
def flatEntries (lm : List String) (names : List String) (c : Colour) :
    List (Nat × Colour) :=
  (names.filter (fun nm => nm ∈ lm)).map (fun nm => (idxOf lm nm, c))

/-- Python dict assignment `d[k] = v` on an insertion-ordered association
list: replace in place when the key exists, else append. -/
def dictSet (d : List (Nat × Colour)) (k : Nat) (v : Colour) :
    List (Nat × Colour) :=
  if k ∈ d.map Prod.fst then
    d.map (fun p => if p.1 = k then (k, v) else p)
  else d ++ [(k, v)]

/-- A run of Python dict assignments (also `dict.update`). -/
def dictUpdate (d e : List (Nat × Colour)) : List (Nat × Colour) :=
  e.foldl (fun acc kv => dictSet acc kv.1 kv.2) d

/-- `_part_colours["spine"]`. -/
def spineColours : Colour × Colour := ((255, 255, 0), (255, 0, 0))

/-- `_part_colours["left leg"]`. -/
def leftLegColours : Colour × Colour := ((255, 0, 255), (75, 0, 150))

/-- `_part_colours["right leg"]`. -/
def rightLegColours : Colour × Colour := ((100, 100, 255), (0, 0, 150))

/-- `_part_colours["left arm"]`. -/
def leftArmColours : Colour × Colour := ((0, 255, 0), (0, 120, 0))

/-- `_part_colours["right arm"]`. -/
def rightArmColours : Colour × Colour := ((0, 255, 255), (0, 120, 120))

/-- `_part_colours["head"]`. -/
def headColours : Colour × Colour := ((170, 170, 0), (210, 210, 0))

/-- `_part_colours["objects"]`. -/
def objectsColours : Colour × Colour := ((175, 0, 0), (175, 100, 0))

/-- The sided flat colours of `_part_colours`. -/
def leftHandColour : Colour := (120, 255, 120)

/-- `_part_colours["right hand"]`. -/
def rightHandColour : Colour := (180, 255, 255)

/-- `_part_colours["left foot"]`. -/
def leftFootColour : Colour := (255, 145, 255)

/-- `_part_colours["right foot"]`. -/
def rightFootColour : Colour := (130, 180, 255)

/-- `_part_colours["left face"]` (= `_part_colours["right face"]`). -/
def faceColour : Colour := (120, 120, 0)

/-- The colour-dict entry stream of one section, in the order the
`_compute_colours` loop produces its dict assignments (the `_body_parts`
iteration order is leg, arm, spine, head, face, hand, foot, objects, and
sided parts run left side then right side). -/
def sectionEntries (lm : List String) : Section → List (Nat × Colour)
  | .MAIN =>
    gradientEntries lm (legList.map ("left " ++ ·)) leftLegColours.1 leftLegColours.2
    ++ gradientEntries lm (legList.map ("right " ++ ·)) rightLegColours.1 rightLegColours.2
    ++ gradientEntries lm (armList.map ("left " ++ ·)) leftArmColours.1 leftArmColours.2
    ++ gradientEntries lm (armList.map ("right " ++ ·)) rightArmColours.1 rightArmColours.2
    ++ gradientEntries lm spineList spineColours.1 spineColours.2
  | .HEAD => gradientEntries lm headListBP headColours.1 headColours.2
  | .FACE =>
    flatEntries lm (faceDict.map (fun p => "left " ++ p.1)) faceColour
    ++ flatEntries lm (faceDict.map (fun p => "right " ++ p.1)) faceColour
  | .HANDS =>
    flatEntries lm (handDict.map (fun p => "left " ++ p.1)) leftHandColour
    ++ flatEntries lm (handDict.map (fun p => "right " ++ p.1)) rightHandColour
  | .FEET =>
    flatEntries lm (footDict.map (fun p => "left " ++ p.1)) leftFootColour
    ++ flatEntries lm (footDict.map (fun p => "right " ++ p.1)) rightFootColour
  | .OBJECTS => gradientEntries lm objectsList objectsColours.1 objectsColours.2

/-- Embeds `_Skeleton._compute_colours`: each section's dict is the result
of running that section's assignment stream on an empty dict. -/
def computeColours (lm : List String) (sec : Section) : List (Nat × Colour) :=
  dictUpdate [] (sectionEntries lm sec)

/-- Embeds `_Skeleton.get_colour_dict`: `dict.update` with each enabled
section's dict, over the section members in declaration order.  (As with
`get_bone_list`, the composite `FULL` member's bucket is always empty.) -/
def getColourDict (lm : List String) (mask : Nat) : List (Nat × Colour) :=
  sectionsOrder.foldl
    (fun acc sec =>
      if sec.bit &&& mask ≠ 0 then dictUpdate acc (computeColours lm sec)
      else acc) []

/-! ## Schema intersection (`humanpose/intersection.py`) -/

/-- The `Intersection` attributes: `_src_vec`, `_dest_vec`, `landmarks`. -/
structure Intersection where
  src_vec : List Nat
  dest_vec : List Nat
  landmarks : List String
deriving Repr, DecidableEq

/-- The `Intersection.__init__` loop, written with the running `enumerate`
index made explicit: for each destination landmark also present in the
source, record `src.index(landmark)`, the destination index, and the name. -/
def interBuild (src : List String) (idx : Nat) :
    List String → List Nat × List Nat × List String
  | [] => ([], [], [])
  | landmark :: rest =>
    let r := interBuild src (idx + 1) rest
    if landmark ∈ src then
      (idxOf src landmark :: r.1, idx :: r.2.1, landmark :: r.2.2)
    else r

/-- Embeds `Intersection.__init__`. -/
def Intersection.init (src dest : List String) : Intersection :=
  { src_vec := (interBuild src 0 dest).1,
    dest_vec := (interBuild src 0 dest).2.1,
    landmarks := (interBuild src 0 dest).2.2 }

/-- NumPy arrays as the `source`/`destination` projections see them: the two
supported layouts `[landmarks, coordinates]` and
`[frames, landmarks, coordinates]`, or an array of any other number of axes
(whose data the code never touches). -/
inductive NpArray (α : Type) where
  | two (rows : List (List α))
  | three (frames : List (List (List α)))
  | otherDim (n : Nat) (h2 : n ≠ 2) (h3 : n ≠ 3)

/-- `len(keypoints.shape)`. -/
def NpArray.ndim {α : Type} : NpArray α → Nat
  | .two _ => 2
  | .three _ => 3
  | .otherDim n _ _ => n

/-- Outcome of a Python call: an exception propagated, a bare `return`
(Python `None`), or a returned value. -/
inductive PyOutcome (α : Type) where
  | raised
  | returnedNone
  | returned (a : α)
deriving DecidableEq

/-- NumPy fancy indexing `rows[vec]` along the first axis: gathers the rows
at the given indices, `none` when any index is out of range (`IndexError`,
no partial result). -/
def gatherRows {α : Type} (vec : List Nat) (rows : List (List α)) :
    Option (List (List α)) :=
  match vec with
  | [] => some []
  | i :: v => do
    let r ← rows[i]?
    let rest ← gatherRows v rows
    pure (r :: rest)

/-- `keypoints[:, vec]`: the gather applied frame by frame along axis 1;
`none` when any index is out of range in any frame. -/
def gatherFrames {α : Type} (vec : List Nat) (frames : List (List (List α))) :
    Option (List (List (List α))) :=
  match frames with
  | [] => some []
  | fr :: rest => do
    let g ← gatherRows vec fr
    let r ← gatherFrames vec rest
    pure (g :: r)

/-- Projection along a recorded index vector, dispatching on the number of
axes exactly as `Intersection.source`/`Intersection.destination` do:
`keypoints[vec]` for 2 axes, `keypoints[:, vec]` for 3 axes, and a bare
fall-through (Python `None`) otherwise. -/
def projectVec {α : Type} (vec : List Nat) (kp : NpArray α) :
    PyOutcome (NpArray α) :=
  match kp with
  | .two rows =>
    match gatherRows vec rows with
    | some r => .returned (.two r)
    | none => .raised
  | .three frames =>
    match gatherFrames vec frames with
    | some r => .returned (.three r)
    | none => .raised
  | .otherDim _ _ _ => .returnedNone

/-- Embeds `Intersection.source`. -/
def Intersection.source {α : Type} (I : Intersection) (kp : NpArray α) :
    PyOutcome (NpArray α) :=
  projectVec I.src_vec kp

/-- Embeds `Intersection.destination`. -/
def Intersection.destination {α : Type} (I : Intersection) (kp : NpArray α) :
    PyOutcome (NpArray α) :=
  projectVec I.dest_vec kp

/-! ## Helper lemmas about the list primitives -/

theorem idxOf_lt_length {lm : List String} {x : String} (h : x ∈ lm) :
    idxOf lm x < lm.length := by
  induction lm with
  | nil => cases h
  | cons a r ih =>
    by_cases hax : a = x
    · simp [idxOf, hax]
    · rcases List.mem_cons.1 h with rfl | hr
      · exact absurd rfl hax
      · simpa [idxOf, hax] using ih hr

theorem getElem?_idxOf {lm : List String} {x : String} (h : x ∈ lm) :
    lm[idxOf lm x]? = some x := by
  induction lm with
  | nil => cases h
  | cons a r ih =>
    by_cases hax : a = x
    · subst hax; simp [idxOf]
    · rcases List.mem_cons.1 h with rfl | hr
      · exact absurd rfl hax
      · simpa [idxOf, hax] using ih hr

theorem idxOf_inj {lm : List String} {x y : String} (hx : x ∈ lm) (hy : y ∈ lm)
    (h : idxOf lm x = idxOf lm y) : x = y := by
  have h1 := getElem?_idxOf hx
  have h2 := getElem?_idxOf hy
  rw [h, h2] at h1
  exact (Option.some_inj.1 h1).symm

theorem firstPresent_eq_none {lm : List String} {cand : List String} :
    firstPresent lm cand = none ↔ ∀ s ∈ cand, s ∉ lm := by
  induction cand with
  | nil => simp [firstPresent]
  | cons c r ih =>
    by_cases hc : c ∈ lm <;> simp [firstPresent, hc, ih]

/-! ## C1: absence tolerance of skeleton construction -/

/-- The raising `list.index` sites of `_limb2spine` are the only failure
points: with both side limb ends present and both hips present, every
fallback path produces a value. -/
theorem limb2spine_isSome (lm : List String) (le : String)
    (sa sl : List String)
    (h1 : ("left " ++ le) ∈ lm) (h2 : ("right " ++ le) ∈ lm)
    (hl : "left hip" ∈ lm) (hr : "right hip" ∈ lm) :
    (limb2spine lm le sa sl).isSome := by
  unfold limb2spine
  simp only [idxOf?, if_pos h1, if_pos h2, Option.bind_some, Option.some_bind]
  cases firstPresent lm sa with
  | some a => simp
  | none =>
    cases firstPresent lm sl with
    | some ns => simp
    | none =>
      by_cases hle : le = "hip" <;>
        simp [hle, idxOf?, if_pos hl, if_pos hr]

/-- C1 counterexample: the schema `["pelvis"]` is duplicate-free, yet the
unconditional hip-to-spine pass evaluates `landmarks.index("left hip")` and
raises, so skeleton construction does not tolerate a missing hip: the claim
that construction never raises on any duplicate-free schema is false. -/
theorem C1_counterexample :
    (["pelvis"] : List String).Nodup ∧ computeBones ["pelvis"] = none := by
  constructor
  · decide
  · decide

/-- C1 amended: skeleton construction never raises provided the schema
contains both "left hip" and "right hip", contains "right clavicle" whenever
it contains "left clavicle", and contains "right shoulder" whenever it
contains "left shoulder" but not "left clavicle"; every other canonical
joint name may be absent and is silently excluded. -/
theorem C1_construction_isSome (lm : List String)
    (hl : "left hip" ∈ lm) (hr : "right hip" ∈ lm)
    (hc : "left clavicle" ∈ lm → "right clavicle" ∈ lm)
    (hs : "left clavicle" ∉ lm → "left shoulder" ∈ lm → "right shoulder" ∈ lm) :
    (computeBones lm).isSome := by
  have hhip : (hipLink lm).isSome := by
    unfold hipLink
    exact limb2spine_isSome lm "hip" _ _ hl hr hl hr
  have hsj : shoulderJoint? lm ["clavicle", "shoulder"] =
      (if "left clavicle" ∈ lm then some "clavicle"
       else if "left shoulder" ∈ lm then some "shoulder" else none) := by
    simp [shoulderJoint?]
  have hsh : (shoulderLink lm).isSome := by
    unfold shoulderLink
    rw [hsj]
    by_cases h1 : "left clavicle" ∈ lm
    · simp only [if_pos h1]
      exact limb2spine_isSome lm "clavicle" _ _ h1 (hc h1) hl hr
    · simp only [if_neg h1]
      by_cases h2 : "left shoulder" ∈ lm
      · simp only [if_pos h2]
        exact limb2spine_isSome lm "shoulder" _ _ h2 (hs h1 h2) hl hr
      · simp [if_neg h2]
  unfold computeBones
  obtain ⟨sh, hsome⟩ := Option.isSome_iff_exists.1 hsh
  obtain ⟨hp, hhsome⟩ := Option.isSome_iff_exists.1 hhip
  rw [hsome, hhsome]
  rfl

/-- C1 witness input: the two-hip schema satisfies the amended hypotheses and
construction succeeds on it. -/
theorem C1_construction_isSome_witness :
    ("left hip" ∈ (["left hip", "right hip"] : List String))
    ∧ (computeBones ["left hip", "right hip"]).isSome :=
  ⟨by decide,
   C1_construction_isSome ["left hip", "right hip"] (by decide) (by decide)
     (by decide) (by decide)⟩

/-! ## C2: the four-landmark fixture -/

/-- C2 counterexample: on the schema `["nose", "left hip", "right hip",
"pelvis"]` the head-to-spine scan finds "nose" present and then finds
"pelvis" present in the spine candidate list, so the HEAD section receives
the bone (nose, pelvis) = (0, 3): the claim that the HEAD bone list is empty
is false (the MAIN part of the claim does hold). -/
theorem C2_counterexample :
    computeBones ["nose", "left hip", "right hip", "pelvis"] =
      some { main := [(1, 3), (2, 3)], head := [(0, 3)],
             face := [], hands := [], feet := [], objects := [] }
    ∧ (Bones.head <$> computeBones ["nose", "left hip", "right hip", "pelvis"])
        ≠ some [] := by
  constructor
  · decide
  · decide

/-- C2 amended: on the schema `["nose", "left hip", "right hip", "pelvis"]`
the MAIN bone list is exactly [(left hip, pelvis), (right hip, pelvis)] =
[(1, 3), (2, 3)] (hip fallback step 1), and the HEAD bone list is exactly
the single head-spine link bone (nose, pelvis) = [(0, 3)]: "pelvis" is a
present spine candidate, so the head link fires rather than being skipped. -/
theorem C2_fixture :
    ∃ b, computeBones ["nose", "left hip", "right hip", "pelvis"] = some b
      ∧ b.main = [(1, 3), (2, 3)]
      ∧ b.head = [(0, 3)] := by
  refine ⟨{ main := [(1, 3), (2, 3)], head := [(0, 3)],
            face := [], hands := [], feet := [], objects := [] },
          ?_, ?_, ?_⟩ <;> decide

/-! ## C10: unsupported array ranks fall through to Python `None` -/

/-- C10: for any input array whose number of axes is neither 2 nor 3, both
projections return Python `None` (neither an exception nor a projected
array): the `if`/`elif` of `Intersection.source`/`destination` has no final
`else`, so such arrays fall through both branches silently. -/
theorem C10_other_ndim_returns_none {α : Type} (I : Intersection)
    (kp : NpArray α) (h2 : kp.ndim ≠ 2) (h3 : kp.ndim ≠ 3) :
    I.source kp = PyOutcome.returnedNone
    ∧ I.destination kp = PyOutcome.returnedNone := by
  cases kp with
  | two rows => exact absurd rfl h2
  | three frames => exact absurd rfl h3
  | otherDim n hn2 hn3 => exact ⟨rfl, rfl⟩

/-- C10 witness: a 4-axis array with a concrete intersection. -/
theorem C10_other_ndim_returns_none_witness :
    (NpArray.otherDim (α := ℚ) 4 (by decide) (by decide)).ndim ≠ 2
    ∧ (Intersection.init ["a", "b"] ["b", "a"]).source
        (NpArray.otherDim (α := ℚ) 4 (by decide) (by decide))
        = PyOutcome.returnedNone
    ∧ (Intersection.init ["a", "b"] ["b", "a"]).destination
        (NpArray.otherDim (α := ℚ) 4 (by decide) (by decide))
        = PyOutcome.returnedNone :=
  ⟨by decide,
   (C10_other_ndim_returns_none (Intersection.init ["a", "b"] ["b", "a"])
     (NpArray.otherDim 4 (by decide) (by decide)) (by decide) (by decide)).1,
   (C10_other_ndim_returns_none (Intersection.init ["a", "b"] ["b", "a"])
     (NpArray.otherDim 4 (by decide) (by decide)) (by decide) (by decide)).2⟩

/-! ## C9: projection bounds behaviour -/

theorem gatherRows_none {α : Type} {vec : List Nat} {rows : List (List α)}
    (h : ∃ i ∈ vec, rows.length ≤ i) : gatherRows vec rows = none := by
  induction vec with
  | nil => simp at h
  | cons j v ih =>
    rcases h with ⟨i, hi, hlen⟩
    rcases List.mem_cons.1 hi with rfl | hv
    · have hnone : rows[i]? = none := by
        rw [List.getElem?_eq_none_iff]
        omega
      simp [gatherRows, hnone]
    · have := ih ⟨i, hv, hlen⟩
      cases hj : rows[j]? <;> simp [gatherRows, hj, this]

theorem gatherRows_some {α : Type} {vec : List Nat} {rows : List (List α)}
    (h : ∀ i ∈ vec, i < rows.length) :
    ∃ out, gatherRows vec rows = some out ∧ out.length = vec.length
      ∧ ∀ (k i : Nat), vec[k]? = some i → out[k]? = rows[i]? := by
  induction vec with
  | nil => exact ⟨[], by simp [gatherRows], by simp, by simp⟩
  | cons j v ih =>
    have hj : j < rows.length := h j (List.mem_cons_self j v)
    obtain ⟨out, hout, hlen, hget⟩ :=
      ih (fun i hi => h i (List.mem_cons_of_mem j hi))
    refine ⟨rows[j] :: out, ?_, by simp [hlen], ?_⟩
    · simp [gatherRows, List.getElem?_eq_getElem hj, hout]
    · intro k i hk
      cases k with
      | zero =>
        simp at hk
        subst hk
        simp [List.getElem?_eq_getElem hj]
      | succ k =>
        simp only [List.getElem?_cons_succ] at hk ⊢
        exact hget k i hk

theorem gatherFrames_none {α : Type} {vec : List Nat}
    {frames : List (List (List α))} {L : Nat} (hne : frames ≠ [])
    (hL : ∀ fr ∈ frames, fr.length = L) (h : ∃ i ∈ vec, L ≤ i) :
    gatherFrames vec frames = none := by
  cases frames with
  | nil => exact absurd rfl hne
  | cons fr rest =>
    have hfr : gatherRows vec fr = none := by
      apply gatherRows_none
      rcases h with ⟨i, hi, hLi⟩
      exact ⟨i, hi, by rw [hL fr (List.mem_cons_self fr rest)]; exact hLi⟩
    simp [gatherFrames, hfr]

theorem gatherFrames_some {α : Type} {vec : List Nat}
    {frames : List (List (List α))} {L : Nat}
    (hL : ∀ fr ∈ frames, fr.length = L) (h : ∀ i ∈ vec, i < L) :
    ∃ out, gatherFrames vec frames = some out
      ∧ out.length = frames.length
      ∧ ∀ (f : Nat) (fr : List (List α)), frames[f]? = some fr →
          ∃ ofr, out[f]? = some ofr ∧ ofr.length = vec.length
            ∧ ∀ (k i : Nat), vec[k]? = some i → ofr[k]? = fr[i]? := by
  induction frames with
  | nil => exact ⟨[], by simp [gatherFrames], by simp, by simp⟩
  | cons fr rest ih =>
    have hfr : ∀ i ∈ vec, i < fr.length := by
      intro i hi
      rw [hL fr (List.mem_cons_self fr rest)]
      exact h i hi
    obtain ⟨g, hg, hglen, hgget⟩ := gatherRows_some hfr
    obtain ⟨out, hout, hlen, hget⟩ :=
      ih (fun x hx => hL x (List.mem_cons_of_mem fr hx))
    refine ⟨g :: out, by simp [gatherFrames, hg, hout], by simp [hlen], ?_⟩
    intro f fr' hf
    cases f with
    | zero =>
      simp at hf
      subst hf
      exact ⟨g, by simp, hglen, hgget⟩
    | succ f =>
      simp only [List.getElem?_cons_succ] at hf ⊢
      exact hget f fr' hf

/-- C9: for 2- or 3-axis inputs, projection raises an out-of-range error
(with no partial result) exactly when the landmark axis is shorter than some
recorded index, and otherwise returns a new array gathering the rows at the
recorded indices, preserving the frame and coordinate axes.  (3-axis arrays
are taken nonempty so that the nested-list embedding determines the landmark
axis length `L`.) -/
theorem C9_projection_bounds {α : Type} (I : Intersection) :
    (∀ rows : List (List α),
      ((∃ i ∈ I.src_vec, rows.length ≤ i) →
          I.source (NpArray.two rows) = PyOutcome.raised)
      ∧ ((∀ i ∈ I.src_vec, i < rows.length) → ∃ out,
          I.source (NpArray.two rows) = PyOutcome.returned (NpArray.two out)
          ∧ out.length = I.src_vec.length
          ∧ ∀ (k i : Nat), I.src_vec[k]? = some i → out[k]? = rows[i]?)
      ∧ ((∃ i ∈ I.dest_vec, rows.length ≤ i) →
          I.destination (NpArray.two rows) = PyOutcome.raised)
      ∧ ((∀ i ∈ I.dest_vec, i < rows.length) → ∃ out,
          I.destination (NpArray.two rows) = PyOutcome.returned (NpArray.two out)
          ∧ out.length = I.dest_vec.length
          ∧ ∀ (k i : Nat), I.dest_vec[k]? = some i → out[k]? = rows[i]?))
    ∧ (∀ (frames : List (List (List α))) (L : Nat), frames ≠ [] →
        (∀ fr ∈ frames, fr.length = L) →
      ((∃ i ∈ I.src_vec, L ≤ i) →
          I.source (NpArray.three frames) = PyOutcome.raised)
      ∧ ((∀ i ∈ I.src_vec, i < L) → ∃ out,
          I.source (NpArray.three frames) = PyOutcome.returned (NpArray.three out)
          ∧ out.length = frames.length
          ∧ ∀ (f : Nat) (fr : List (List α)), frames[f]? = some fr →
              ∃ ofr, out[f]? = some ofr ∧ ofr.length = I.src_vec.length
                ∧ ∀ (k i : Nat), I.src_vec[k]? = some i → ofr[k]? = fr[i]?)
      ∧ ((∃ i ∈ I.dest_vec, L ≤ i) →
          I.destination (NpArray.three frames) = PyOutcome.raised)
      ∧ ((∀ i ∈ I.dest_vec, i < L) → ∃ out,
          I.destination (NpArray.three frames)
              = PyOutcome.returned (NpArray.three out)
          ∧ out.length = frames.length
          ∧ ∀ (f : Nat) (fr : List (List α)), frames[f]? = some fr →
              ∃ ofr, out[f]? = some ofr ∧ ofr.length = I.dest_vec.length
                ∧ ∀ (k i : Nat), I.dest_vec[k]? = some i → ofr[k]? = fr[i]?)) := by
  have two : ∀ (vec : List Nat) (rows : List (List α)),
      ((∃ i ∈ vec, rows.length ≤ i) →
          projectVec vec (NpArray.two rows) = PyOutcome.raised)
      ∧ ((∀ i ∈ vec, i < rows.length) → ∃ out,
          projectVec vec (NpArray.two rows) = PyOutcome.returned (NpArray.two out)
          ∧ out.length = vec.length
          ∧ ∀ (k i : Nat), vec[k]? = some i → out[k]? = rows[i]?) := by
    intro vec rows
    constructor
    · intro h
      simp [projectVec, gatherRows_none h]
    · intro h
      obtain ⟨out, hout, hlen, hget⟩ := gatherRows_some h
      exact ⟨out, by simp [projectVec, hout], hlen, hget⟩
  have three : ∀ (vec : List Nat) (frames : List (List (List α))) (L : Nat),
      frames ≠ [] → (∀ fr ∈ frames, fr.length = L) →
      ((∃ i ∈ vec, L ≤ i) →
          projectVec vec (NpArray.three frames) = PyOutcome.raised)
      ∧ ((∀ i ∈ vec, i < L) → ∃ out,
          projectVec vec (NpArray.three frames)
              = PyOutcome.returned (NpArray.three out)
          ∧ out.length = frames.length
          ∧ ∀ (f : Nat) (fr : List (List α)), frames[f]? = some fr →
              ∃ ofr, out[f]? = some ofr ∧ ofr.length = vec.length
                ∧ ∀ (k i : Nat), vec[k]? = some i → ofr[k]? = fr[i]?) := by
    intro vec frames L hne hL
    constructor
    · intro h
      simp [projectVec, gatherFrames_none hne hL h]
    · intro h
      obtain ⟨out, hout, hlen, hget⟩ := gatherFrames_some hL h
      exact ⟨out, by simp [projectVec, hout], hlen, hget⟩
  refine ⟨fun rows => ⟨(two I.src_vec rows).1, (two I.src_vec rows).2,
    (two I.dest_vec rows).1, (two I.dest_vec rows).2⟩,
    fun frames L hne hL => ⟨(three I.src_vec frames L hne hL).1,
      (three I.src_vec frames L hne hL).2,
      (three I.dest_vec frames L hne hL).1,
      (three I.dest_vec frames L hne hL).2⟩⟩

/-- C9 witness: with the intersection of `["a","b"]` into `["b","a"]`
(recorded source indices `[1, 0]`), a 2-axis array with a single row is too
short and the projection raises, while a two-row array projects to the rows
in recorded order. -/
theorem C9_projection_bounds_witness :
    (∃ i ∈ (Intersection.init ["a", "b"] ["b", "a"]).src_vec,
        ([[ (1 : ℚ), 2 ]] : List (List ℚ)).length ≤ i)
    ∧ (Intersection.init ["a", "b"] ["b", "a"]).source
        (NpArray.two [[(1 : ℚ), 2]]) = PyOutcome.raised := by
  refine ⟨by decide, ?_⟩
  exact ((C9_projection_bounds (Intersection.init ["a", "b"] ["b", "a"])).1
    [[(1 : ℚ), 2]]).1 (by decide)

/-! ## C3: intersection alignment invariants -/

theorem interBuild_landmarks (src : List String) :
    ∀ (dest : List String) (idx : Nat),
      (interBuild src idx dest).2.2 = dest.filter (fun l => l ∈ src) := by
  intro dest
  induction dest with
  | nil => intro idx; simp [interBuild]
  | cons d rest ih =>
    intro idx
    by_cases hd : d ∈ src <;> simp [interBuild, hd, ih (idx + 1)]

theorem interBuild_lengths (src : List String) :
    ∀ (dest : List String) (idx : Nat),
      (interBuild src idx dest).1.length = (interBuild src idx dest).2.2.length
      ∧ (interBuild src idx dest).2.1.length
          = (interBuild src idx dest).2.2.length := by
  intro dest
  induction dest with
  | nil => intro idx; simp [interBuild]
  | cons d rest ih =>
    intro idx
    by_cases hd : d ∈ src <;>
      simp [interBuild, hd, (ih (idx + 1)).1, (ih (idx + 1)).2]

theorem interBuild_dest_get (src : List String) :
    ∀ (dest : List String) (idx : Nat) (k j : Nat),
      (interBuild src idx dest).2.1[k]? = some j →
        idx ≤ j ∧ dest[j - idx]? = (interBuild src idx dest).2.2[k]? := by
  intro dest
  induction dest with
  | nil => intro idx k j h; simp [interBuild] at h
  | cons d rest ih =>
    intro idx k j h
    by_cases hd : d ∈ src
    · simp only [interBuild, if_pos hd] at h
      cases k with
      | zero =>
        simp at h
        subst h
        simp [interBuild, hd]
      | succ k =>
        simp only [List.getElem?_cons_succ] at h
        obtain ⟨hle, heq⟩ := ih (idx + 1) k j h
        refine ⟨by omega, ?_⟩
        have hsub : j - idx = (j - (idx + 1)) + 1 := by omega
        rw [hsub]
        simpa [interBuild, hd] using heq
    · simp only [interBuild, if_neg hd] at h
      obtain ⟨hle, heq⟩ := ih (idx + 1) k j h
      refine ⟨by omega, ?_⟩
      have hsub : j - idx = (j - (idx + 1)) + 1 := by omega
      rw [hsub]
      simpa [interBuild, hd] using heq

theorem interBuild_src_get (src : List String) :
    ∀ (dest : List String) (idx : Nat) (k j : Nat),
      (interBuild src idx dest).1[k]? = some j →
        src[j]? = (interBuild src idx dest).2.2[k]? := by
  intro dest
  induction dest with
  | nil => intro idx k j h; simp [interBuild] at h
  | cons d rest ih =>
    intro idx k j h
    by_cases hd : d ∈ src
    · simp only [interBuild, if_pos hd] at h
      cases k with
      | zero =>
        simp at h
        subst h
        simpa [interBuild, hd] using getElem?_idxOf hd
      | succ k =>
        simp only [List.getElem?_cons_succ] at h
        simpa [interBuild, hd] using ih (idx + 1) k j h
    · simp only [interBuild, if_neg hd] at h
      simpa [interBuild, hd] using ih (idx + 1) k j h

/-- C3: for duplicate-free schemas, the intersection's landmark list is the
common names in destination order, its length is the cardinality of the
common name set, and the two recorded index vectors point back at the very
landmark stored at the same position: `dest[dest_vec[k]] = landmarks[k] =
src[src_vec[k]]`. -/
theorem C3_intersection_alignment (src dest : List String)
    (hsrc : src.Nodup) (hdest : dest.Nodup) :
    (Intersection.init src dest).landmarks = dest.filter (fun l => l ∈ src)
    ∧ (Intersection.init src dest).landmarks.length
        = (src.toFinset ∩ dest.toFinset).card
    ∧ (Intersection.init src dest).src_vec.length
        = (Intersection.init src dest).landmarks.length
    ∧ (Intersection.init src dest).dest_vec.length
        = (Intersection.init src dest).landmarks.length
    ∧ (∀ (k j : Nat), (Intersection.init src dest).dest_vec[k]? = some j →
        dest[j]? = (Intersection.init src dest).landmarks[k]?)
    ∧ (∀ (k j : Nat), (Intersection.init src dest).src_vec[k]? = some j →
        src[j]? = (Intersection.init src dest).landmarks[k]?) := by
  refine ⟨interBuild_landmarks src dest 0, ?_,
    (interBuild_lengths src dest 0).1, (interBuild_lengths src dest 0).2,
    ?_, interBuild_src_get src dest 0⟩
  · show (interBuild src 0 dest).2.2.length = _
    rw [interBuild_landmarks src dest 0]
    have hnd : (dest.filter (fun l => l ∈ src)).Nodup := hdest.filter _
    rw [← List.toFinset_card_of_nodup hnd, List.toFinset_filter]
    have : dest.toFinset.filter (fun l => (decide (l ∈ src) : Bool))
        = dest.toFinset ∩ src.toFinset := by
      rw [← Finset.filter_mem_eq_inter]
      apply Finset.filter_congr
      intro x _
      simp
    rw [this, Finset.inter_comm]
  · intro k j h
    have := interBuild_dest_get src dest 0 k j h
    simpa using this.2

/-- C3 witness: a concrete pair of duplicate-free schemas. -/
theorem C3_intersection_alignment_witness :
    (["a", "b", "c"] : List String).Nodup
    ∧ (["c", "a", "d"] : List String).Nodup
    ∧ ((Intersection.init ["a", "b", "c"] ["c", "a", "d"]).landmarks
        = List.filter (fun l => l ∈ (["a", "b", "c"] : List String))
            ["c", "a", "d"]
       ∧ (Intersection.init ["a", "b", "c"] ["c", "a", "d"]).landmarks.length
          = ((["a", "b", "c"] : List String).toFinset
              ∩ (["c", "a", "d"] : List String).toFinset).card
       ∧ (Intersection.init ["a", "b", "c"] ["c", "a", "d"]).src_vec.length
          = (Intersection.init ["a", "b", "c"] ["c", "a", "d"]).landmarks.length
       ∧ (Intersection.init ["a", "b", "c"] ["c", "a", "d"]).dest_vec.length
          = (Intersection.init ["a", "b", "c"] ["c", "a", "d"]).landmarks.length
       ∧ (∀ (k j : Nat),
            (Intersection.init ["a", "b", "c"] ["c", "a", "d"]).dest_vec[k]?
              = some j →
            (["c", "a", "d"] : List String)[j]?
              = (Intersection.init ["a", "b", "c"] ["c", "a", "d"]).landmarks[k]?)
       ∧ (∀ (k j : Nat),
            (Intersection.init ["a", "b", "c"] ["c", "a", "d"]).src_vec[k]?
              = some j →
            (["a", "b", "c"] : List String)[j]?
              = (Intersection.init ["a", "b", "c"] ["c", "a", "d"]).landmarks[k]?)) :=
  ⟨by decide, by decide,
   C3_intersection_alignment ["a", "b", "c"] ["c", "a", "d"]
     (by decide) (by decide)⟩

/-! ## C5: the head-to-spine link -/

theorem headSpineLink_eq (lm : List String) (c : List String) :
    headSpineLink lm c =
      match firstPresent lm c, firstPresent lm spineList with
      | some hp, some sp => [(idxOf lm hp, idxOf lm sp)]
      | _, _ => [] := by
  induction c with
  | nil => rfl
  | cons hp rest ih =>
    have hfp : firstPresent lm (hp :: rest)
        = if hp ∈ lm then some hp else firstPresent lm rest := rfl
    by_cases h : hp ∈ lm
    · rw [headSpineLink, if_pos h, hfp, if_pos h]
      cases hsp : firstPresent lm spineList with
      | some ts => rfl
      | none =>
        show headSpineLink lm rest = ([] : List Bone)
        rw [ih, hsp]
        cases firstPresent lm rest <;> rfl
    · rw [headSpineLink, if_neg h, hfp, if_neg h, ih]

/-- C5: the head-to-spine pass adds at most one bone beyond the head chain;
the bone connects the first present head candidate in reverse priority order
(the candidate scan order is ["nose", "head top"]) with the first present
spine candidate in forward order, and no bone is added when either scan
finds nothing. -/
theorem C5_head_link (lm : List String) :
    (headSpineLink lm headListBP.reverse).length ≤ 1
    ∧ headListBP.reverse = ["nose", "head top"]
    ∧ headSpineLink lm headListBP.reverse =
        (match firstPresent lm headListBP.reverse,
               firstPresent lm spineList with
         | some hp, some sp => [(idxOf lm hp, idxOf lm sp)]
         | _, _ => []) := by
  refine ⟨?_, by decide, headSpineLink_eq lm headListBP.reverse⟩
  rw [headSpineLink_eq lm headListBP.reverse]
  cases firstPresent lm headListBP.reverse <;>
    cases firstPresent lm spineList <;> simp

/-! ## C6: the gap-skipping invariant of chain connection -/

/-- Consecutive pairs of a list: the path over the listed vertices. -/
def chainPairs : List Nat → List Bone
  | a :: b :: r => (a, b) :: chainPairs (b :: r)
  | _ => []

theorem connectSeqFrom_eq (lm : List String) (c : List String) :
    ∀ pt, connectSeqFrom lm pt c
      = chainPairs (idxOf lm pt :: (c.filter (fun nm => nm ∈ lm)).map (idxOf lm)) := by
  induction c with
  | nil => intro pt; simp [connectSeqFrom, chainPairs]
  | cons n r ih =>
    intro pt
    by_cases h : n ∈ lm
    · simp [connectSeqFrom, h, ih n, chainPairs]
    · simp [connectSeqFrom, h, ih pt]

theorem connectSequence_eq (lm : List String) (c : List String) :
    connectSequence lm c
      = chainPairs ((c.filter (fun nm => nm ∈ lm)).map (idxOf lm)) := by
  induction c with
  | nil => simp [connectSequence, chainPairs]
  | cons pt rest ih =>
    by_cases h : pt ∈ lm
    · simp [connectSequence, h, connectSeqFrom_eq lm rest pt]
    · simp [connectSequence, h, ih]

theorem chainPairs_length (l : List Nat) :
    (chainPairs l).length = l.length - 1 := by
  induction l with
  | nil => simp [chainPairs]
  | cons a r ih =>
    cases r with
    | nil => simp [chainPairs]
    | cons b r2 => simpa [chainPairs] using ih

theorem filter_length_mono {p q : String → Bool} (l : List String)
    (h : ∀ a, p a = true → q a = true) :
    (l.filter p).length ≤ (l.filter q).length := by
  induction l with
  | nil => simp
  | cons a r ih =>
    by_cases hp : p a = true
    · rw [List.filter_cons_of_pos hp, List.filter_cons_of_pos (h a hp)]
      simpa using ih
    · rw [List.filter_cons_of_neg (by simpa using hp)]
      by_cases hq : q a = true
      · rw [List.filter_cons_of_pos hq]
        exact le_trans ih (by simp)
      · rw [List.filter_cons_of_neg (by simpa using hq)]
        exact ih

/-- C6: removing any single joint name from the schema never increases the
bone count the sequential chain-connect produces for any chain candidate
list, and the bones over the remaining present joints are exactly the
consecutive pairs of those joints' indices, i.e. a single connected path
bridging every gap. -/
theorem C6_gap_skipping (cl lm : List String) (x : String) :
    (connectSequence (lm.erase x) cl).length ≤ (connectSequence lm cl).length
    ∧ connectSequence (lm.erase x) cl
        = chainPairs ((cl.filter (fun nm => nm ∈ lm.erase x)).map
            (idxOf (lm.erase x))) := by
  refine ⟨?_, connectSequence_eq (lm.erase x) cl⟩
  rw [connectSequence_eq, connectSequence_eq, chainPairs_length,
    chainPairs_length, List.length_map, List.length_map]
  have hmono : (cl.filter (fun nm => decide (nm ∈ lm.erase x))).length
      ≤ (cl.filter (fun nm => decide (nm ∈ lm))).length := by
    apply filter_length_mono
    intro a ha
    simp only [decide_eq_true_eq] at ha ⊢
    exact List.mem_of_mem_erase ha
  omega

/-! ## C7: section order and MAIN construction order -/

/-- C7: `get_bone_list` returns the concatenation of the enabled sections'
bone lists in canonical declaration order (MAIN, HEAD, FACE, HANDS, FEET,
OBJECTS), and the MAIN list was built as arm chains, then the shoulder-spine
link, then leg chains, then the hip-spine link, then the spine chain. -/
theorem C7_bone_list_order (lm : List String) (mask : Nat) (b : Bones)
    (h : computeBones lm = some b) :
    getBoneList b mask =
      (if Section.bit .MAIN &&& mask ≠ 0 then b.main else [])
      ++ (if Section.bit .HEAD &&& mask ≠ 0 then b.head else [])
      ++ (if Section.bit .FACE &&& mask ≠ 0 then b.face else [])
      ++ (if Section.bit .HANDS &&& mask ≠ 0 then b.hands else [])
      ++ (if Section.bit .FEET &&& mask ≠ 0 then b.feet else [])
      ++ (if Section.bit .OBJECTS &&& mask ≠ 0 then b.objects else [])
    ∧ ∃ sh hp, shoulderLink lm = some sh ∧ hipLink lm = some hp
        ∧ b.main = connectSequenceSym lm armList ++ sh
            ++ connectSequenceSym lm legList ++ hp
            ++ connectSequence lm spineList := by
  constructor
  · simp only [getBoneList, sectionsOrder, List.foldl, Bones.get]
    split_ifs <;> simp
  · cases hsh : shoulderLink lm with
    | none => rw [computeBones, hsh] at h; simp at h
    | some sh =>
      cases hhp : hipLink lm with
      | none => rw [computeBones, hsh, hhp] at h; simp at h
      | some hp =>
        rw [computeBones, hsh, hhp] at h
        refine ⟨sh, hp, rfl, rfl, ?_⟩
        cases h
        rfl

/-- C7 witness: the two-hip schema with mask `MAIN | HEAD = 3`. -/
theorem C7_bone_list_order_witness :
    computeBones ["left hip", "right hip"]
      = some { main := [(0, 1)], head := [], face := [],
               hands := [], feet := [], objects := [] }
    ∧ (getBoneList { main := [(0, 1)], head := [], face := [],
                     hands := [], feet := [], objects := [] } 3 =
        (if Section.bit .MAIN &&& 3 ≠ 0 then [(0, 1)] else [])
        ++ (if Section.bit .HEAD &&& 3 ≠ 0 then [] else [])
        ++ (if Section.bit .FACE &&& 3 ≠ 0 then [] else [])
        ++ (if Section.bit .HANDS &&& 3 ≠ 0 then [] else [])
        ++ (if Section.bit .FEET &&& 3 ≠ 0 then [] else [])
        ++ (if Section.bit .OBJECTS &&& 3 ≠ 0 then [] else [])
       ∧ ∃ sh hp, shoulderLink ["left hip", "right hip"] = some sh
          ∧ hipLink ["left hip", "right hip"] = some hp
          ∧ [(0, 1)] = connectSequenceSym ["left hip", "right hip"] armList
              ++ sh ++ connectSequenceSym ["left hip", "right hip"] legList
              ++ hp ++ connectSequence ["left hip", "right hip"] spineList) :=
  ⟨by decide,
   C7_bone_list_order ["left hip", "right hip"] 3
     { main := [(0, 1)], head := [], face := [],
       hands := [], feet := [], objects := [] } (by decide)⟩

/-! ## C4: chain colour interpolation -/

theorem pyInt_intCast (z : ℤ) : pyInt ((z : ℚ)) = z := by
  simp only [pyInt, Rat.num_intCast, Rat.den_intCast, Nat.cast_one]
  cases z with
  | ofNat m => simp [Int.tdiv]
  | negSucc m =>
    simp [Int.tdiv]
    rw [Int.negSucc_eq]
    ring

theorem pyInt_eq_floor (q : ℚ) (h : 0 ≤ q) : pyInt q = ⌊q⌋ := by
  rw [pyInt, Rat.floor_def]
  exact Int.tdiv_eq_ediv (Rat.num_nonneg.2 h) (by positivity)

theorem gradT_of_one_lt {i n : Nat} (h : 1 < n) :
    gradT i n = (i : ℚ) / ((n : ℚ) - 1) := by
  simp [gradT, h]

theorem gradT_one_three : gradT 1 3 = 1 / 2 := by
  rw [gradT_of_one_lt (by norm_num)]
  norm_num

theorem rne_intCast (z : ℤ) : rne ((z : ℚ)) = z := by
  simp [rne, Int.floor_intCast, sub_self]

theorem rne_eq_floor {m : ℚ} {f : ℤ} (hf : ⌊m⌋ = f) (h : m - (f : ℚ) < 1 / 2) :
    rne m = f := by
  rw [rne, hf, if_pos h]

theorem rne_tie_even {m : ℚ} {f : ℤ} (hf : ⌊m⌋ = f) (h : m - (f : ℚ) = 1 / 2)
    (he : 2 ∣ f) : rne m = f := by
  rw [rne, hf, if_neg (by rw [h]; norm_num), if_neg (by rw [h]; norm_num),
    if_pos he]

theorem qlog2_spec (q : ℚ) (hq : 0 < q) :
    (2 : ℚ) ^ qlog2 q ≤ q ∧ q < (2 : ℚ) ^ (qlog2 q + 1) := by
  have hnum : 0 < q.num := Rat.num_pos.2 hq
  have hdenQ : (0 : ℚ) < (q.den : ℚ) := by exact_mod_cast q.den_pos
  have hnum0 : q.num.toNat ≠ 0 := by omega
  have hden0 : q.den ≠ 0 := Nat.pos_iff_ne_zero.1 q.den_pos
  have htn : ((q.num.toNat : ℤ)) = q.num := Int.toNat_of_nonneg (le_of_lt hnum)
  have h1 : (2 : ℚ) ^ q.num.toNat.log2 ≤ (q.num : ℚ) := by
    have hn := Nat.log2_self_le hnum0
    have hZ : (2 ^ q.num.toNat.log2 : ℤ) ≤ q.num := by
      rw [← htn]
      exact_mod_cast hn
    exact_mod_cast hZ
  have h2 : (q.num : ℚ) < (2 : ℚ) ^ (q.num.toNat.log2 + 1) := by
    have hn := Nat.lt_log2_self (n := q.num.toNat)
    have hZ : q.num < (2 ^ (q.num.toNat.log2 + 1) : ℤ) := by
      rw [← htn]
      exact_mod_cast hn
    exact_mod_cast hZ
  have h3 : (2 : ℚ) ^ q.den.log2 ≤ (q.den : ℚ) := by
    exact_mod_cast Nat.log2_self_le hden0
  have h4 : (q.den : ℚ) < (2 : ℚ) ^ (q.den.log2 + 1) := by
    exact_mod_cast Nat.lt_log2_self (n := q.den)
  have hqeq : q = (q.num : ℚ) / (q.den : ℚ) := (Rat.num_div_den q).symm
  have hpow2 : ∀ k : ℕ, (0 : ℚ) < (2 : ℚ) ^ k := fun k => by positivity
  have hmc1 := mul_comm ((q.den : ℚ)) ((2 : ℚ) ^ q.num.toNat.log2)
  have hmc2 := mul_comm ((q.den : ℚ)) ((2 : ℚ) ^ (q.num.toNat.log2 + 1))
  rw [qlog2]
  split
  case isTrue hif =>
    have hifQ : ((q.den : ℚ)) * (2 : ℚ) ^ q.num.toNat.log2
        ≤ (q.num : ℚ) * (2 : ℚ) ^ q.den.log2 := by exact_mod_cast hif
    constructor
    · rw [zpow_sub₀ (two_ne_zero), zpow_natCast, zpow_natCast]
      conv_rhs => rw [hqeq]
      rw [div_le_div_iff (hpow2 _) hdenQ]
      linarith [hifQ, hmc1]
    · rw [show (q.num.toNat.log2 : ℤ) - q.den.log2 + 1
          = ((q.num.toNat.log2 + 1 : ℕ) : ℤ) - (q.den.log2 : ℤ) by push_cast; ring,
        zpow_sub₀ (two_ne_zero), zpow_natCast, zpow_natCast]
      conv_lhs => rw [hqeq]
      rw [div_lt_div_iff hdenQ (hpow2 _)]
      have a1 : (q.num : ℚ) * (2 : ℚ) ^ q.den.log2
          < (2 : ℚ) ^ (q.num.toNat.log2 + 1) * (2 : ℚ) ^ q.den.log2 :=
        mul_lt_mul_of_pos_right h2 (hpow2 _)
      have a2 : (2 : ℚ) ^ (q.num.toNat.log2 + 1) * (2 : ℚ) ^ q.den.log2
          ≤ (2 : ℚ) ^ (q.num.toNat.log2 + 1) * (q.den : ℚ) :=
        mul_le_mul_of_nonneg_left h3 (le_of_lt (hpow2 _))
      linarith
  case isFalse hif =>
    have hifQ : (q.num : ℚ) * (2 : ℚ) ^ q.den.log2
        < ((q.den : ℚ)) * (2 : ℚ) ^ q.num.toNat.log2 := by
      exact_mod_cast not_le.1 hif
    constructor
    · rw [show (q.num.toNat.log2 : ℤ) - q.den.log2 - 1
          = (q.num.toNat.log2 : ℤ) - ((q.den.log2 + 1 : ℕ) : ℤ) by push_cast; ring,
        zpow_sub₀ (two_ne_zero), zpow_natCast, zpow_natCast]
      conv_rhs => rw [hqeq]
      rw [div_le_div_iff (hpow2 _) hdenQ]
      have a1 : (2 : ℚ) ^ q.num.toNat.log2 * (q.den : ℚ)
          ≤ (q.num : ℚ) * (q.den : ℚ) :=
        mul_le_mul_of_nonneg_right h1 (le_of_lt hdenQ)
      have a2 : (q.num : ℚ) * (q.den : ℚ)
          ≤ (q.num : ℚ) * (2 : ℚ) ^ (q.den.log2 + 1) := by
        apply mul_le_mul_of_nonneg_left (le_of_lt h4)
        have hnQ : (0 : ℚ) < (q.num : ℚ) := by exact_mod_cast hnum
        linarith
      linarith
    · rw [show (q.num.toNat.log2 : ℤ) - q.den.log2 - 1 + 1
          = (q.num.toNat.log2 : ℤ) - q.den.log2 by ring,
        zpow_sub₀ (two_ne_zero), zpow_natCast, zpow_natCast]
      conv_lhs => rw [hqeq]
      rw [div_lt_div_iff hdenQ (hpow2 _)]
      linarith [hifQ, hmc1]

theorem qlog2_eq_of {q : ℚ} (hq : 0 < q) {L : ℤ} (h1 : (2 : ℚ) ^ L ≤ q)
    (h2 : q < (2 : ℚ) ^ (L + 1)) : qlog2 q = L := by
  obtain ⟨g1, g2⟩ := qlog2_spec q hq
  by_contra hne
  rcases lt_or_gt_of_ne hne with h | h
  · have hle : (2 : ℚ) ^ (qlog2 q + 1) ≤ (2 : ℚ) ^ L :=
      zpow_le_zpow_right₀ (by norm_num) (by omega)
    linarith
  · have hle : (2 : ℚ) ^ (L + 1) ≤ (2 : ℚ) ^ qlog2 q :=
      zpow_le_zpow_right₀ (by norm_num) (by omega)
    linarith

theorem fl_eval {q : ℚ} {L z : ℤ} (hq : 0 < q) (h1 : (2 : ℚ) ^ L ≤ q)
    (h2 : q < (2 : ℚ) ^ (L + 1)) (hz : rne (q * (2 : ℚ) ^ (52 - L)) = z) :
    fl q = (z : ℚ) * (2 : ℚ) ^ (L - 52) := by
  rw [fl, if_neg (ne_of_gt hq), abs_of_pos hq, qlog2_eq_of hq h1 h2, hz]

theorem fl_zero : fl 0 = 0 := by simp [fl]

theorem fl_eq_self {m e : ℤ} (hm : |m| < 2 ^ 53) :
    fl ((m : ℚ) * (2 : ℚ) ^ e) = (m : ℚ) * (2 : ℚ) ^ e := by
  by_cases hm0 : m = 0
  · simp [hm0, fl_zero]
  · have hmQ : ((m : ℚ)) ≠ 0 := Int.cast_ne_zero.2 hm0
    have hq0 : (m : ℚ) * (2 : ℚ) ^ e ≠ 0 :=
      mul_ne_zero hmQ (zpow_ne_zero e two_ne_zero)
    rw [fl, if_neg hq0]
    have habs2 : |(2 : ℚ) ^ e| = (2 : ℚ) ^ e := abs_of_pos (zpow_pos two_pos e)
    have habs : |(m : ℚ) * (2 : ℚ) ^ e| = |(m : ℚ)| * (2 : ℚ) ^ e := by
      rw [abs_mul, habs2]
    have habs_pos : 0 < |(m : ℚ) * (2 : ℚ) ^ e| := abs_pos.2 hq0
    have hub : (2 : ℚ) ^ qlog2 |(m : ℚ) * (2 : ℚ) ^ e|
        ≤ |(m : ℚ) * (2 : ℚ) ^ e| := (qlog2_spec _ habs_pos).1
    have hmabs : |(m : ℚ)| < (2 : ℚ) ^ (53 : ℤ) := by
      rw [← Int.cast_abs]
      have : ((|m| : ℤ) : ℚ) < ((2 ^ 53 : ℤ) : ℚ) := Int.cast_lt.2 hm
      calc ((|m| : ℤ) : ℚ) < ((2 ^ 53 : ℤ) : ℚ) := this
        _ = (2 : ℚ) ^ (53 : ℤ) := by push_cast; norm_num
    have habs_lt : |(m : ℚ) * (2 : ℚ) ^ e| < (2 : ℚ) ^ (e + 53) := by
      rw [habs, zpow_add₀ (two_ne_zero : (2 : ℚ) ≠ 0)]
      calc |(m : ℚ)| * (2 : ℚ) ^ e < (2 : ℚ) ^ (53 : ℤ) * (2 : ℚ) ^ e :=
            mul_lt_mul_of_pos_right hmabs (zpow_pos two_pos e)
        _ = (2 : ℚ) ^ e * (2 : ℚ) ^ (53 : ℤ) := by ring
    have hLe : qlog2 |(m : ℚ) * (2 : ℚ) ^ e| ≤ e + 52 := by
      have hlt : (2 : ℚ) ^ qlog2 |(m : ℚ) * (2 : ℚ) ^ e|
          < (2 : ℚ) ^ (e + 53) := lt_of_le_of_lt hub habs_lt
      have := (zpow_lt_zpow_iff_right₀ (a := (2 : ℚ)) (by norm_num)).1 hlt
      omega
    set L := qlog2 |(m : ℚ) * (2 : ℚ) ^ e| with hL
    have hexp : e + (52 - L) = ((e + 52 - L).toNat : ℤ) := by omega
    have hscale : (m : ℚ) * (2 : ℚ) ^ e * (2 : ℚ) ^ (52 - L)
        = ((m * 2 ^ (e + 52 - L).toNat : ℤ) : ℚ) := by
      push_cast
      rw [mul_assoc, ← zpow_add₀ (two_ne_zero : (2 : ℚ) ≠ 0),
        ← zpow_natCast (2 : ℚ) (e + 52 - L).toNat]
      rw [← hexp]
    rw [hscale, rne_intCast]
    push_cast
    rw [mul_assoc, ← zpow_natCast (2 : ℚ) (e + 52 - L).toNat,
      ← zpow_add₀ (two_ne_zero : (2 : ℚ) ≠ 0),
      show (((e + 52 - L).toNat : ℤ) + (L - 52)) = e from by omega]

theorem fl_intCast {m : ℤ} (hm : |m| < 2 ^ 53) : fl ((m : ℚ)) = m := by
  have h := fl_eq_self (e := 0) hm
  simpa using h

theorem fl_one : fl (1 : ℚ) = 1 := by
  have h := fl_intCast (m := 1) (by norm_num)
  simpa using h

theorem fl_half : fl (1 / 2 : ℚ) = 1 / 2 := by
  have h := fl_eq_self (m := 1) (e := -1) (by norm_num)
  rw [show ((1 : ℤ) : ℚ) * (2 : ℚ) ^ (-1 : ℤ) = 1 / 2 by norm_num] at h
  exact h

theorem fl_255_half : fl (255 / 2 : ℚ) = 255 / 2 := by
  have h := fl_eq_self (m := 255) (e := -1) (by norm_num)
  rw [show ((255 : ℤ) : ℚ) * (2 : ℚ) ^ (-1 : ℤ) = 255 / 2 by norm_num] at h
  exact h

theorem interpChannel_single (s e : ℤ) : interpChannel s e 0 1 = e := by
  norm_num [interpChannel]

theorem interpChannel_t_zero {s : ℤ} (e : ℤ) {i n : Nat} (hn : 1 < n)
    (ht : fl ((i : ℚ) / ((n : ℚ) - 1)) = 0) (hs : |s| < 2 ^ 53) :
    interpChannel s e i n = s := by
  rw [interpChannel, if_pos hn, ht]
  simp [sub_zero, fl_one, fl_zero, mul_one, mul_zero, add_zero,
    fl_intCast hs, pyInt_intCast]

theorem interpChannel_t_one (s : ℤ) {e : ℤ} {i n : Nat} (hn : 1 < n)
    (ht : fl ((i : ℚ) / ((n : ℚ) - 1)) = 1) (he : |e| < 2 ^ 53) :
    interpChannel s e i n = e := by
  rw [interpChannel, if_pos hn, ht]
  simp [sub_self, fl_zero, mul_zero, mul_one, zero_add,
    fl_intCast he, pyInt_intCast]

theorem t_n3_mid : fl (((1 : ℕ) : ℚ) / (((3 : ℕ) : ℚ) - 1)) = 1 / 2 := by
  rw [show ((1 : ℕ) : ℚ) / (((3 : ℕ) : ℚ) - 1) = 1 / 2 by norm_num, fl_half]

theorem int255cast : (((255 : ℤ)) : ℚ) = 255 := by norm_num

theorem fl_int255 : fl (((255 : ℤ)) : ℚ) = 255 := by
  rw [int255cast]
  have h := fl_intCast (m := 255) (by norm_num)
  rw [int255cast] at h
  exact h

theorem fl_int0 : fl (((0 : ℤ)) : ℚ) = 0 := by
  rw [show (((0 : ℤ)) : ℚ) = 0 by norm_num, fl_zero]

theorem pyInt_255_half : pyInt (255 / 2 : ℚ) = 127 := by
  rw [pyInt_eq_floor _ (by norm_num)]
  norm_num

theorem interpChannel_mid_255_0 : interpChannel 255 0 1 3 = 127 := by
  rw [interpChannel, if_pos (by norm_num), t_n3_mid]
  rw [show (1 : ℚ) - 1 / 2 = 1 / 2 by norm_num, fl_half, fl_int255, fl_int0]
  rw [show (255 : ℚ) * (1 / 2) = 255 / 2 by norm_num, fl_255_half]
  rw [zero_mul, fl_zero, add_zero, fl_255_half, pyInt_255_half]

theorem fl_int255_self : fl (255 : ℚ) = 255 := by
  have h := fl_int255
  rwa [int255cast] at h

theorem interpChannel_mid_255_255 : interpChannel 255 255 1 3 = 255 := by
  rw [interpChannel, if_pos (by norm_num), t_n3_mid]
  rw [show (1 : ℚ) - 1 / 2 = 1 / 2 by norm_num, fl_half, fl_int255]
  rw [show (255 : ℚ) * (1 / 2) = 255 / 2 by norm_num, fl_255_half]
  rw [show (255 / 2 : ℚ) + 255 / 2 = 255 by norm_num, fl_int255_self]
  rw [show (255 : ℚ) = ((255 : ℤ) : ℚ) by norm_num, pyInt_intCast]

theorem interpChannel_mid_0_0 : interpChannel 0 0 1 3 = 0 := by
  rw [interpChannel, if_pos (by norm_num), t_n3_mid, fl_int0]
  rw [zero_mul, fl_zero, zero_mul, fl_zero, add_zero, fl_zero]
  rw [show (0 : ℚ) = ((0 : ℤ) : ℚ) by norm_num, pyInt_intCast]

theorem fl_3_7 : fl (3 / 7 : ℚ) = 7720456504063707 / 18014398509481984 := by
  have h := fl_eval (q := 3 / 7) (L := -2) (z := 7720456504063707)
    (by norm_num) (by norm_num) (by norm_num) ?_
  · rw [h]
    norm_num
  · rw [show (3 / 7 : ℚ) * (2 : ℚ) ^ (52 - (-2 : ℤ)) = 54043195528445952 / 7
      by norm_num]
    exact rne_eq_floor (by norm_num) (by norm_num)

theorem fl_one_sub : fl (1 - 7720456504063707 / 18014398509481984 : ℚ)
    = 2573485501354569 / 4503599627370496 := by
  have h := fl_eval (q := 10293942005418277 / 18014398509481984) (L := -1)
    (z := 5146971002709138)
    (by norm_num) (by norm_num) (by norm_num) ?_
  · rw [show (1 - 7720456504063707 / 18014398509481984 : ℚ)
        = 10293942005418277 / 18014398509481984 by norm_num, h]
    norm_num
  · rw [show (10293942005418277 / 18014398509481984 : ℚ)
        * (2 : ℚ) ^ (52 - (-1 : ℤ)) = 10293942005418277 / 2 by norm_num]
    exact rne_tie_even (by norm_num) (by norm_num) (by norm_num)

theorem fl_mul_left : fl (255 * (2573485501354569 / 4503599627370496) : ℚ)
    = 5126865647229805 / 35184372088832 := by
  have h := fl_eval (q := 656238802845415095 / 4503599627370496) (L := 7)
    (z := 5126865647229805)
    (by norm_num) (by norm_num) (by norm_num) ?_
  · rw [show (255 * (2573485501354569 / 4503599627370496) : ℚ)
        = 656238802845415095 / 4503599627370496 by norm_num, h]
    norm_num
  · rw [show (656238802845415095 / 4503599627370496 : ℚ)
        * (2 : ℚ) ^ (52 - (7 : ℤ)) = 656238802845415095 / 128 by norm_num]
    exact rne_eq_floor (by norm_num) (by norm_num)

theorem fl_mul_right : fl (255 * (7720456504063707 / 18014398509481984) : ℚ)
    = 1922574617711177 / 17592186044416 := by
  have h := fl_eval (q := 1968716408536245285 / 18014398509481984) (L := 6)
    (z := 7690298470844708)
    (by norm_num) (by norm_num) (by norm_num) ?_
  · rw [show (255 * (7720456504063707 / 18014398509481984) : ℚ)
        = 1968716408536245285 / 18014398509481984 by norm_num, h]
    norm_num
  · rw [show (1968716408536245285 / 18014398509481984 : ℚ)
        * (2 : ℚ) ^ (52 - (6 : ℤ)) = 1968716408536245285 / 256 by norm_num]
    exact rne_eq_floor (by norm_num) (by norm_num)

theorem fl_sum : fl (5126865647229805 / 35184372088832
    + 1922574617711177 / 17592186044416 : ℚ)
    = 8972014882652159 / 35184372088832 := by
  have h := fl_eq_self (m := 8972014882652159) (e := -45) (by norm_num)
  rw [show (5126865647229805 / 35184372088832
      + 1922574617711177 / 17592186044416 : ℚ)
      = ((8972014882652159 : ℤ) : ℚ) * (2 : ℚ) ^ (-45 : ℤ) by norm_num, h]
  norm_num

/-- The full 8-joint spine at i = 3, red channel: the binary64 evaluation of
`255*(1 - 3/7) + 255*(3/7)` is 254.99999999999997 and `int()` gives 254. -/
theorem interpChannel_full_spine_red : interpChannel 255 255 3 8 = 254 := by
  rw [interpChannel, if_pos (by norm_num)]
  rw [show ((3 : ℕ) : ℚ) / (((8 : ℕ) : ℚ) - 1) = 3 / 7 by norm_num, fl_3_7]
  rw [fl_int255, fl_one_sub, fl_mul_left, fl_mul_right, fl_sum]
  rw [pyInt_eq_floor _ (by norm_num)]
  norm_num

theorem t_n2_left : fl (((0 : ℕ) : ℚ) / (((2 : ℕ) : ℚ) - 1)) = 0 := by
  rw [show ((0 : ℕ) : ℚ) / (((2 : ℕ) : ℚ) - 1) = 0 by norm_num, fl_zero]

theorem t_n2_right : fl (((1 : ℕ) : ℚ) / (((2 : ℕ) : ℚ) - 1)) = 1 := by
  rw [show ((1 : ℕ) : ℚ) / (((2 : ℕ) : ℚ) - 1) = 1 by norm_num, fl_one]

theorem t_n3_left : fl (((0 : ℕ) : ℚ) / (((3 : ℕ) : ℚ) - 1)) = 0 := by
  rw [show ((0 : ℕ) : ℚ) / (((3 : ℕ) : ℚ) - 1) = 0 by norm_num, fl_zero]

theorem t_n3_right : fl (((2 : ℕ) : ℚ) / (((3 : ℕ) : ℚ) - 1)) = 1 := by
  rw [show ((2 : ℕ) : ℚ) / (((3 : ℕ) : ℚ) - 1) = 1 by norm_num, fl_one]

theorem interpColour_single (cs ce : Colour) : interpColour cs ce 0 1 = ce := by
  cases ce with
  | mk c1 c23 =>
    cases c23 with
    | mk c2 c3 => simp [interpColour, interpChannel_single]

theorem interpColour_t_zero (cs ce : Colour) {i n : Nat} (hn : 1 < n)
    (ht : fl ((i : ℚ) / ((n : ℚ) - 1)) = 0)
    (b1 : |cs.1| < 2 ^ 53) (b2 : |cs.2.1| < 2 ^ 53) (b3 : |cs.2.2| < 2 ^ 53) :
    interpColour cs ce i n = cs := by
  cases cs with
  | mk c1 c23 =>
    cases c23 with
    | mk c2 c3 =>
      simp only [interpColour]
      rw [interpChannel_t_zero _ hn ht b1, interpChannel_t_zero _ hn ht b2,
        interpChannel_t_zero _ hn ht b3]

theorem interpColour_t_one (cs ce : Colour) {i n : Nat} (hn : 1 < n)
    (ht : fl ((i : ℚ) / ((n : ℚ) - 1)) = 1)
    (b1 : |ce.1| < 2 ^ 53) (b2 : |ce.2.1| < 2 ^ 53) (b3 : |ce.2.2| < 2 ^ 53) :
    interpColour cs ce i n = ce := by
  cases ce with
  | mk c1 c23 =>
    cases c23 with
    | mk c2 c3 =>
      simp only [interpColour]
      rw [interpChannel_t_one _ hn ht b1, interpChannel_t_one _ hn ht b2,
        interpChannel_t_one _ hn ht b3]

theorem gradientEntries_get (lm names : List String) (cs ce : Colour)
    (i k : Nat) (h : (partJoints lm names)[i]? = some k) :
    (gradientEntries lm names cs ce)[i]?
      = some (k, interpColour cs ce i (partJoints lm names).length) := by
  rw [gradientEntries, List.getElem?_map, List.getElem?_enum, h]
  rfl

/-- C4 amended: for every chain-shaped part (candidate name list with a
configured start/end colour pair) and every schema, the i-th present joint
gets parameter `t = i/(n-1)` for `n > 1` and `t = 1` for `n = 1`, and its
colour per channel is the Python `int()` truncation (not `round`) of the
binary64 evaluation of `start*(1-t) + end*t`; a single present joint gets
exactly the end colour, and two present joints whose configured channel
values have magnitude below `2^53` (every catalog colour does) get exactly
the start and end colours. -/
theorem C4_gradient_interpolation (lm names : List String) (cs ce : Colour) :
    (∀ (i k : Nat), (partJoints lm names)[i]? = some k →
        (gradientEntries lm names cs ce)[i]?
          = some (k, interpColour cs ce i (partJoints lm names).length))
    ∧ (∀ k : Nat, partJoints lm names = [k] →
        gradientEntries lm names cs ce = [(k, ce)])
    ∧ (∀ k0 k1 : Nat, partJoints lm names = [k0, k1] →
        |cs.1| < 2 ^ 53 → |cs.2.1| < 2 ^ 53 → |cs.2.2| < 2 ^ 53 →
        |ce.1| < 2 ^ 53 → |ce.2.1| < 2 ^ 53 → |ce.2.2| < 2 ^ 53 →
        gradientEntries lm names cs ce = [(k0, cs), (k1, ce)]) := by
  refine ⟨gradientEntries_get lm names cs ce, ?_, ?_⟩
  · intro k hk
    rw [gradientEntries, hk]
    simp only [List.enum_cons, List.enumFrom, List.map, List.length_singleton]
    rw [interpColour_single]
  · intro k0 k1 hk b1 b2 b3 b4 b5 b6
    rw [gradientEntries, hk]
    simp only [List.enum_cons, List.enumFrom, List.map, List.length_cons,
      List.length_singleton, List.length_nil]
    rw [interpColour_t_zero cs ce (by norm_num) t_n2_left b1 b2 b3,
      interpColour_t_one cs ce (by norm_num) t_n2_right b4 b5 b6]

/-- C4 counterexample: the code computes each channel with Python float
arithmetic and `int()` truncation, not `round` of the exact interpolation.
On `["head centre", "head", "neck"]` the middle spine joint's green channel
is `int(255/2) = 127` while `round(255/2) = 128`; on the full 8-joint spine
the red channel of joint 3 is `int(254.99999999999997) = 254` while the
exact value is 255, so `round` gives 255. -/
theorem C4_counterexample :
    interpChannel 255 0 1 3 = 127
    ∧ round ((255 : ℚ) * (1 - gradT 1 3) + (0 : ℚ) * gradT 1 3) = 128
    ∧ interpChannel 255 255 3 8 = 254
    ∧ round ((255 : ℚ) * (1 - gradT 3 8) + (255 : ℚ) * gradT 3 8) = 255
    ∧ computeColours ["head centre", "head", "neck"] Section.MAIN
      = [(0, (255, 255, 0)), (1, (255, 127, 0)), (2, (255, 0, 0))] := by
  refine ⟨interpChannel_mid_255_0, ?_, interpChannel_full_spine_red, ?_, ?_⟩
  · rw [gradT_one_three]
    norm_num [round_eq]
  · rw [gradT_of_one_lt (by norm_num)]
    norm_num [round_eq]
  · have e1 : partJoints ["head centre", "head", "neck"]
        (legList.map ("left " ++ ·)) = [] := by decide
    have e2 : partJoints ["head centre", "head", "neck"]
        (legList.map ("right " ++ ·)) = [] := by decide
    have e3 : partJoints ["head centre", "head", "neck"]
        (armList.map ("left " ++ ·)) = [] := by decide
    have e4 : partJoints ["head centre", "head", "neck"]
        (armList.map ("right " ++ ·)) = [] := by decide
    have hpj : partJoints ["head centre", "head", "neck"] spineList
        = [0, 1, 2] := by decide
    have hc0 : interpColour spineColours.1 spineColours.2 0 3
        = ((255 : ℤ), (255 : ℤ), (0 : ℤ)) :=
      interpColour_t_zero spineColours.1 spineColours.2 (by norm_num)
        t_n3_left (by decide) (by decide) (by decide)
    have hc2 : interpColour spineColours.1 spineColours.2 2 3
        = ((255 : ℤ), (0 : ℤ), (0 : ℤ)) :=
      interpColour_t_one spineColours.1 spineColours.2 (by norm_num)
        t_n3_right (by decide) (by decide) (by decide)
    have hc1 : interpColour spineColours.1 spineColours.2 1 3
        = ((255 : ℤ), (127 : ℤ), (0 : ℤ)) := by
      show (interpChannel 255 255 1 3, interpChannel 255 0 1 3,
            interpChannel 0 0 1 3) = _
      rw [interpChannel_mid_255_255, interpChannel_mid_255_0,
        interpChannel_mid_0_0]
    have hsec : sectionEntries ["head centre", "head", "neck"] Section.MAIN
        = [(0, ((255 : ℤ), (255 : ℤ), (0 : ℤ))),
           (1, ((255 : ℤ), (127 : ℤ), (0 : ℤ))),
           (2, ((255 : ℤ), (0 : ℤ), (0 : ℤ)))] := by
      simp only [sectionEntries, gradientEntries, e1, e2, e3, e4, hpj]
      simp only [List.enum_cons, List.enumFrom, List.map, List.enum_nil,
        List.nil_append, List.append_nil, List.length_cons, List.length_nil]
      rw [show (0 : Nat) + 1 + 1 + 1 = 3 from rfl] at *
      rw [hc0, hc1, hc2]
    rw [computeColours, hsec]
    decide

/-! ## C8: disjointness of the per-section colour dictionaries -/

/-- Key list of a colour dictionary. -/
def dictKeys (d : List (Nat × Colour)) : List Nat := d.map Prod.fst

/-- The canonical joint names that can contribute colour keys to each
section, in the order the `_compute_colours` loop visits them. -/
def sectionNames : Section → List String
  | .MAIN => legList.map ("left " ++ ·) ++ legList.map ("right " ++ ·)
      ++ armList.map ("left " ++ ·) ++ armList.map ("right " ++ ·) ++ spineList
  | .HEAD => headListBP
  | .FACE => faceDict.map (fun p => "left " ++ p.1)
      ++ faceDict.map (fun p => "right " ++ p.1)
  | .HANDS => handDict.map (fun p => "left " ++ p.1)
      ++ handDict.map (fun p => "right " ++ p.1)
  | .FEET => footDict.map (fun p => "left " ++ p.1)
      ++ footDict.map (fun p => "right " ++ p.1)
  | .OBJECTS => objectsList

theorem dictKeys_gradientEntries (lm names : List String) (cs ce : Colour) :
    dictKeys (gradientEntries lm names cs ce) = partJoints lm names := by
  rw [dictKeys, gradientEntries, List.map_map]
  have : (Prod.fst ∘ fun p : Nat × Nat =>
      ((p.2 : Nat), interpColour cs ce p.1 (partJoints lm names).length))
      = Prod.snd := by
    funext p
    rfl
  rw [this, List.enum_map_snd]

theorem dictKeys_flatEntries (lm names : List String) (c : Colour) :
    dictKeys (flatEntries lm names c)
      = (names.filter (fun nm => nm ∈ lm)).map (idxOf lm) := by
  rw [dictKeys, flatEntries, List.map_map]
  rfl

theorem dictKeys_append (d e : List (Nat × Colour)) :
    dictKeys (d ++ e) = dictKeys d ++ dictKeys e := by
  simp [dictKeys]

theorem dictKeys_sectionEntries (lm : List String) (s : Section) :
    dictKeys (sectionEntries lm s)
      = ((sectionNames s).filter (fun nm => nm ∈ lm)).map (idxOf lm) := by
  cases s <;>
    simp only [sectionEntries, sectionNames, dictKeys_append,
      dictKeys_gradientEntries, dictKeys_flatEntries, partJoints,
      List.filter_append, List.map_append, List.append_assoc]

theorem dictKeys_dictSet_of_mem {d : List (Nat × Colour)} {k : Nat}
    (v : Colour) (h : k ∈ dictKeys d) :
    dictKeys (dictSet d k v) = dictKeys d := by
  have h' : k ∈ d.map Prod.fst := h
  rw [dictSet, if_pos h', dictKeys, dictKeys, List.map_map]
  apply List.map_congr_left
  intro p _
  by_cases hp : p.1 = k <;> simp [hp]

theorem dictSet_of_not_mem {d : List (Nat × Colour)} {k : Nat}
    (v : Colour) (h : k ∉ dictKeys d) :
    dictSet d k v = d ++ [(k, v)] := by
  have h' : k ∉ d.map Prod.fst := h
  rw [dictSet, if_neg h']

theorem dictKeys_cons (kv : Nat × Colour) (e : List (Nat × Colour)) :
    dictKeys (kv :: e) = kv.1 :: dictKeys e := rfl

theorem dictUpdate_eq_append {e d : List (Nat × Colour)}
    (hnd : (dictKeys e).Nodup) (hdisj : ∀ k ∈ dictKeys e, k ∉ dictKeys d) :
    dictUpdate d e = d ++ e := by
  induction e generalizing d with
  | nil => simp [dictUpdate]
  | cons kv e ih =>
    rw [dictKeys_cons, List.nodup_cons] at hnd
    have hk : kv.1 ∉ dictKeys d :=
      hdisj kv.1 (by rw [dictKeys_cons]; exact List.mem_cons_self _ _)
    have hstep : dictSet d kv.1 kv.2 = d ++ [(kv.1, kv.2)] :=
      dictSet_of_not_mem kv.2 hk
    have hdisj' : ∀ k ∈ dictKeys e, k ∉ dictKeys (d ++ [(kv.1, kv.2)]) := by
      intro k hke
      rw [dictKeys_append]
      rw [List.mem_append]
      push_neg
      refine ⟨hdisj k (by rw [dictKeys_cons]; exact List.mem_cons_of_mem _ hke), ?_⟩
      intro hc
      have hck : k = kv.1 := by simpa [dictKeys] using hc
      exact hnd.1 (hck ▸ hke)
    calc dictUpdate d (kv :: e)
        = dictUpdate (dictSet d kv.1 kv.2) e := rfl
      _ = dictSet d kv.1 kv.2 ++ e := ih hnd.2 (by rw [hstep]; exact hdisj')
      _ = d ++ kv :: e := by rw [hstep]; simp

theorem sectionNames_nodup (s : Section) : (sectionNames s).Nodup := by
  cases s <;> decide

theorem sectionNames_disjoint {s t : Section} (hst : s ≠ t) :
    ∀ nm ∈ sectionNames s, nm ∉ sectionNames t := by
  cases s <;> cases t <;> first | exact absurd rfl hst | decide

theorem keys_filter_map_nodup (lm names : List String) (h : names.Nodup) :
    (((names.filter (fun nm => nm ∈ lm)).map (idxOf lm))).Nodup := by
  apply List.Nodup.map_on
  · intro x hx y hy hxy
    have hxlm : x ∈ lm := by simpa using (List.mem_filter.1 hx).2
    have hylm : y ∈ lm := by simpa using (List.mem_filter.1 hy).2
    exact idxOf_inj hxlm hylm hxy
  · exact h.filter _

theorem dictKeys_sectionEntries_nodup (lm : List String) (s : Section) :
    (dictKeys (sectionEntries lm s)).Nodup := by
  rw [dictKeys_sectionEntries]
  exact keys_filter_map_nodup lm _ (sectionNames_nodup s)

theorem computeColours_eq_sectionEntries (lm : List String) (s : Section) :
    computeColours lm s = sectionEntries lm s := by
  rw [computeColours]
  have h := dictUpdate_eq_append (d := [])
    (dictKeys_sectionEntries_nodup lm s) (by simp [dictKeys])
  simpa using h

theorem mem_dictKeys_sectionEntries {lm : List String} {s : Section} {k : Nat}
    (h : k ∈ dictKeys (sectionEntries lm s)) :
    ∃ nm ∈ sectionNames s, nm ∈ lm ∧ k = idxOf lm nm := by
  rw [dictKeys_sectionEntries] at h
  obtain ⟨nm, hmem, hk⟩ := List.mem_map.1 h
  obtain ⟨hnames, hlm⟩ := List.mem_filter.1 hmem
  exact ⟨nm, hnames, by simpa using hlm, hk.symm⟩

theorem sectionKeys_disjoint {lm : List String} {s t : Section} (hst : s ≠ t)
    {k : Nat} (hs : k ∈ dictKeys (sectionEntries lm s)) :
    k ∉ dictKeys (sectionEntries lm t) := by
  intro ht
  obtain ⟨nm1, hn1, hl1, hk1⟩ := mem_dictKeys_sectionEntries hs
  obtain ⟨nm2, hn2, hl2, hk2⟩ := mem_dictKeys_sectionEntries ht
  have heq : nm1 = nm2 := idxOf_inj hl1 hl2 (by rw [← hk1, ← hk2])
  exact sectionNames_disjoint hst nm1 hn1 (heq ▸ hn2)

theorem mem_dictKeys_flatten {lm : List String} {ss : List Section} {k : Nat} :
    k ∈ dictKeys ((ss.map (fun s => sectionEntries lm s)).flatten)
      ↔ ∃ t ∈ ss, k ∈ dictKeys (sectionEntries lm t) := by
  induction ss with
  | nil => simp [dictKeys]
  | cons s ss ih =>
    rw [List.map_cons, List.flatten_cons, dictKeys_append, List.mem_append, ih]
    simp

theorem foldl_sections (lm : List String) (p : Section → Prop)
    [DecidablePred p] :
    ∀ (ss : List Section), ss.Nodup →
      ∀ acc : List (Nat × Colour),
        (∀ s ∈ ss, ∀ k ∈ dictKeys (sectionEntries lm s), k ∉ dictKeys acc) →
        ss.foldl
          (fun a s => if p s then dictUpdate a (sectionEntries lm s) else a) acc
          = acc ++ ((ss.filter (fun s => p s)).map
              (fun s => sectionEntries lm s)).flatten := by
  intro ss
  induction ss with
  | nil => intro _ acc _; simp
  | cons s ss ih =>
    intro hnd acc hacc
    rw [List.nodup_cons] at hnd
    by_cases hp : p s
    · rw [List.foldl_cons, if_pos hp, List.filter_cons_of_pos (by simpa using hp)]
      have hstep : dictUpdate acc (sectionEntries lm s)
          = acc ++ sectionEntries lm s :=
        dictUpdate_eq_append (dictKeys_sectionEntries_nodup lm s)
          (hacc s (List.mem_cons_self _ _))
      rw [hstep, ih hnd.2 (acc ++ sectionEntries lm s) ?_]
      · simp
      · intro t ht k hk
        rw [dictKeys_append, List.mem_append]
        push_neg
        refine ⟨hacc t (List.mem_cons_of_mem _ ht) k hk, ?_⟩
        exact fun hc =>
          (sectionKeys_disjoint (fun he : t = s => hnd.1 (he ▸ ht)) hk) hc
    · rw [List.foldl_cons, if_neg hp, List.filter_cons_of_neg (by simpa using hp)]
      exact ih hnd.2 acc (fun t ht => hacc t (List.mem_cons_of_mem _ ht))

/-- C8: for a duplicate-free schema the per-section colour dictionaries have
pairwise disjoint key sets, and for every mask `get_colour_dict` is the plain
concatenation of the enabled sections' dictionaries in declaration order:
the `dict.update` merge never overwrites an entry of another section. -/
theorem C8_colour_union_unambiguous (lm : List String) (hnd : lm.Nodup) :
    (∀ s t : Section, s ≠ t → ∀ k : Nat,
        k ∈ dictKeys (computeColours lm s) → k ∉ dictKeys (computeColours lm t))
    ∧ ∀ mask : Nat, getColourDict lm mask
        = ((sectionsOrder.filter (fun s => s.bit &&& mask ≠ 0)).map
            (fun s => computeColours lm s)).flatten := by
  constructor
  · intro s t hst k hk
    rw [computeColours_eq_sectionEntries] at hk ⊢
    exact sectionKeys_disjoint hst hk
  · intro mask
    rw [getColourDict]
    simp only [computeColours_eq_sectionEntries]
    have h := foldl_sections lm (fun s => s.bit &&& mask ≠ 0) sectionsOrder
      (by decide) [] (by simp [dictKeys])
    simpa using h

/-- C8 witness: the fixture schema is duplicate-free. -/
theorem C8_colour_union_unambiguous_witness :
    (["nose", "left hip", "right hip", "pelvis"] : List String).Nodup
    ∧ ((∀ s t : Section, s ≠ t → ∀ k : Nat,
        k ∈ dictKeys
            (computeColours ["nose", "left hip", "right hip", "pelvis"] s)
          → k ∉ dictKeys
            (computeColours ["nose", "left hip", "right hip", "pelvis"] t))
      ∧ ∀ mask : Nat,
          getColourDict ["nose", "left hip", "right hip", "pelvis"] mask
          = ((sectionsOrder.filter (fun s => s.bit &&& mask ≠ 0)).map
              (fun s =>
                computeColours ["nose", "left hip", "right hip", "pelvis"] s)).flatten) :=
  ⟨by decide, C8_colour_union_unambiguous _ (by decide)⟩

/-- C4 witness: on the schema `["neck", "pelvis"]` the spine chain has two
present joints, which receive exactly the configured start and end colours. -/
theorem C4_gradient_interpolation_witness :
    partJoints ["neck", "pelvis"] spineList = [0, 1]
    ∧ gradientEntries ["neck", "pelvis"] spineList spineColours.1 spineColours.2
        = [(0, spineColours.1), (1, spineColours.2)] :=
  ⟨by decide,
   (C4_gradient_interpolation ["neck", "pelvis"] spineList
     spineColours.1 spineColours.2).2.2 0 1 (by decide) (by decide) (by decide)
     (by decide) (by decide) (by decide) (by decide)⟩
